import Mathlib

/-!
Verification development for the candid-captions repository.

The core component is `ParallelProcessor` (src/parallelProcessor.ts), a
bounded-concurrency task runner.  We embed it as an explicit state machine:

* The synchronous part of `process` (the `items.map(... enqueue ...)` loop)
  is `submitAll`: for each index, if `activeCount < concurrency` the task
  starts immediately (enters `active`, is recorded in `started`), otherwise
  its start-thunk is appended to `queue`.
* The asynchronous part is driven by a completion schedule: each completion
  event (`completeStep`) models the task body finishing (success or thrown
  error, captured into `results[index]` by the try/catch), followed by the
  `finally` block: decrement `activeCount`, dequeue and start the head of
  `queue` when non-empty, and resolve that task's enqueue promise
  (recorded in `resolved`).

Runs quantify over an arbitrary schedule, covering every completion order
the event loop may produce.  `processResolvedB` models resolution of the
`Promise.all` returned by `process`: every item's enqueue promise resolved.

Also embedded: the caption prompt construction of
src/captionGenerator.ts (`buildEnhancedPrompt`), the metadata context
selection of the two `processImage` variants (src/index.ts uses `||`,
the part_001 variant uses `??`), and the exiftool read/write wrappers of
src/imageProcessor.ts.
-/

namespace CandidCaptions

/-- Per-item outcome of the async operation: resolved value, or thrown/
rejected error (held as its message). -/
inductive Outcome (R : Type) where
  | success (value : R)
  | failure (error : String)
  deriving DecidableEq, Repr

/-- One slot of the `results` array of `ParallelProcessor.process`:
`\x7b item, result \x7d` on success, `\x7b item, error \x7d` on failure. -/
structure ResultEntry (T R : Type) where
  item : T
  result : Option R
  error : Option String
  deriving DecidableEq, Repr

/-- The entry the task for a given item writes into its result slot:
`results[index] = \x7b item, result \x7d` in the try branch,
`results[index] = \x7b item, error \x7d` in the catch branch. -/
def expectedEntry {T R : Type} (t : T) : Outcome R → ResultEntry T R
  | .success r => ⟨t, some r, none⟩
  | .failure e => ⟨t, none, some e⟩

/-- State of one `ParallelProcessor` run.  `concurrency`, `activeCount` and
`queue` are the instance fields; `results` is the array built by `process`
(`none` = not yet written); `started` records the order in which task
bodies began executing; `resolved` records which enqueue promises have
resolved. -/
structure RunnerState (T R : Type) where
  concurrency : Int
  activeCount : Int
  active : List Nat
  queue : List Nat
  results : List (Option (ResultEntry T R))
  started : List Nat
  resolved : List Nat
  deriving DecidableEq, Repr

variable {T R : Type}

/-- One call of `enqueue` during the `items.map` loop: if
`activeCount < concurrency` the task's `run` executes immediately
(`activeCount++`, task starts); otherwise `run` is pushed onto `queue`. -/
def submitOne (s : RunnerState T R) (i : Nat) : RunnerState T R :=
  if s.activeCount < s.concurrency then
    { s with activeCount := s.activeCount + 1,
             active := s.active ++ [i],
             started := s.started ++ [i] }
  else
    { s with queue := s.queue ++ [i] }

/-- One completion event for an in-flight task `j`: the task body stores
its entry at index `j` (try/catch), then the `finally` block runs:
`activeCount--`; if the queue is non-empty its head is shifted off and
started (`run` increments `activeCount` again); finally the enqueue
promise for `j` resolves.  A step for an index that is not in flight is a
no-op (no such event can occur). -/
def completeStep [Inhabited T] (items : List T) (op : Nat → Outcome R)
    (s : RunnerState T R) (j : Nat) : RunnerState T R :=
  if j ∈ s.active then
    let results := s.results.set j (some (expectedEntry (items.getD j default) (op j)))
    let resolved := if j ∈ s.resolved then s.resolved else s.resolved ++ [j]
    match s.queue with
    | [] =>
      { s with results := results, resolved := resolved,
               activeCount := s.activeCount - 1,
               active := s.active.erase j }
    | k :: rest =>
      { s with results := results, resolved := resolved,
               activeCount := s.activeCount - 1 + 1,
               active := (s.active.erase j) ++ [k],
               queue := rest,
               started := s.started ++ [k] }
  else s

/-- Fresh runner about to process `n` items: counters zero, queues empty,
no result slot written. -/
def initState (c : Int) (n : Nat) : RunnerState T R :=
  ⟨c, 0, [], [], List.replicate n none, [], []⟩

/-- The synchronous `items.map((item, index) => this.enqueue(...))` loop of
`process`: every index is submitted once, in order. -/
def submitAll (c : Int) (n : Nat) : RunnerState T R :=
  (List.range n).foldl submitOne (initState c n)

/-- Drive a run through a list of completion events. -/
def runSchedule [Inhabited T] (items : List T) (op : Nat → Outcome R)
    (s : RunnerState T R) (sched : List Nat) : RunnerState T R :=
  sched.foldl (completeStep items op) s

/-- A full `process` call: submit all items, then let the event loop
deliver completions in an arbitrary order `sched`. -/
def processRun [Inhabited T] (c : Int) (items : List T) (op : Nat → Outcome R)
    (sched : List Nat) : RunnerState T R :=
  runSchedule items op (submitAll c items.length) sched

/-- Resolution of the `Promise.all` returned by `process`: every item's
enqueue promise has resolved. -/
def processResolvedB (n : Nat) (s : RunnerState T R) : Bool :=
  (List.range n).all (fun i => s.resolved.contains i)

/-- All intermediate states of a run: those of the submission loop followed
by those of the completion schedule. -/
def traceStates [Inhabited T] (c : Int) (items : List T) (op : Nat → Outcome R)
    (sched : List Nat) : List (RunnerState T R) :=
  List.scanl submitOne (initState c items.length) (List.range items.length)
    ++ List.scanl (completeStep items op) (submitAll c items.length) sched

/-! Generic fold/scan invariant helpers. -/

theorem foldl_invariant {α β : Type} (f : β → α → β) (P : β → Prop)
    (hstep : ∀ b a, P b → P (f b a)) :
    ∀ (l : List α) (b : β), P b → P (l.foldl f b) := by
  intro l
  induction l with
  | nil => intro b hb; exact hb
  | cons x xs ih => intro b hb; exact ih (f b x) (hstep b x hb)

theorem scanl_invariant {α β : Type} (f : β → α → β) (P : β → Prop)
    (hstep : ∀ b a, P b → P (f b a)) :
    ∀ (l : List α) (b : β), P b → ∀ s ∈ List.scanl f b l, P s := by
  intro l
  induction l with
  | nil =>
    intro b hb s hs
    simp [List.scanl] at hs
    exact hs ▸ hb
  | cons x xs ih =>
    intro b hb s hs
    simp only [List.scanl, List.mem_cons] at hs
    rcases hs with h | h
    · exact h ▸ hb
    · exact ih (f b x) (hstep b x hb) s h

/-! Counting invariant: `activeCount` mirrors the number of in-flight tasks
and never exceeds the configured concurrency. -/

/-- `concurrency` is the constructor argument, `activeCount` counts the
in-flight tasks, and it never exceeds `concurrency` once `0 ≤ c`. -/
def CountInv (c : Int) (s : RunnerState T R) : Prop :=
  s.concurrency = c ∧ s.activeCount = (s.active.length : Int) ∧ s.activeCount ≤ c

theorem submitOne_countInv {c : Int} (s : RunnerState T R) (i : Nat)
    (h : CountInv c s) : CountInv c (submitOne s i) := by
  obtain ⟨hc, hlen, hle⟩ := h
  unfold submitOne
  by_cases hlt : s.activeCount < s.concurrency
  · simp only [if_pos hlt, CountInv, List.length_append, List.length_cons,
      List.length_nil]
    refine ⟨hc, ?_, ?_⟩
    · push_cast; omega
    · omega
  · simp only [if_neg hlt, CountInv]
    exact ⟨hc, hlen, hle⟩

theorem completeStep_countInv [Inhabited T] {c : Int} (items : List T)
    (op : Nat → Outcome R) (s : RunnerState T R) (j : Nat)
    (h : CountInv c s) : CountInv c (completeStep items op s j) := by
  obtain ⟨hc, hlen, hle⟩ := h
  unfold completeStep
  by_cases hj : j ∈ s.active
  · have hpos : 0 < s.active.length := List.length_pos.mpr (List.ne_nil_of_mem hj)
    have herase : (s.active.erase j).length = s.active.length - 1 :=
      List.length_erase_of_mem hj
    simp only [if_pos hj]
    cases hq : s.queue with
    | nil =>
      dsimp only
      refine ⟨hc, ?_, by dsimp only; omega⟩
      rw [herase]; push_cast [Nat.cast_sub hpos]; omega
    | cons k rest =>
      dsimp only
      refine ⟨hc, ?_, by dsimp only; omega⟩
      simp only [List.length_append, List.length_cons, List.length_nil, herase]
      push_cast [Nat.cast_sub hpos]; omega
  · simp only [if_neg hj]
    exact ⟨hc, hlen, hle⟩

/-! Results invariant: a result slot is written exactly when its task's
promise has resolved, and then it holds that item together with its
operation's outcome. -/

/-- The entry `process` stores for index `i`: `items[i]` paired with the
value resolved, or the error caught, by `processor(items[i])`. -/
def expectedResult [Inhabited T] (items : List T) (op : Nat → Outcome R)
    (i : Nat) : Option (ResultEntry T R) :=
  some (expectedEntry (items.getD i default) (op i))

/-- `results` always agrees with the set of resolved tasks: slot `i` holds
the expected entry for `items[i]` once task `i` resolved, and is unwritten
before that. -/
def ResultsInv [Inhabited T] (items : List T) (op : Nat → Outcome R)
    (s : RunnerState T R) : Prop :=
  s.results = (List.range items.length).map
    (fun i => if i ∈ s.resolved then expectedResult items op i else none)

theorem getElem?_map_range {α : Type} (n i : Nat) (f : Nat → α) :
    ((List.range n).map f)[i]? = if i < n then some (f i) else none := by
  by_cases h : i < n
  · simp [List.getElem?_map, List.getElem?_range h, h]
  · simp only [h, if_false, List.getElem?_map]
    rw [List.getElem?_eq_none (by simpa using Nat.le_of_not_lt h)]
    rfl

theorem mem_resolvedAfter_of_ne {j i : Nat} (resolved : List Nat) (hne : i ≠ j) :
    (i ∈ (if j ∈ resolved then resolved else resolved ++ [j])) ↔ i ∈ resolved := by
  split <;> simp [hne]

theorem mem_resolvedAfter_self (j : Nat) (resolved : List Nat) :
    j ∈ (if j ∈ resolved then resolved else resolved ++ [j]) := by
  split <;> simp_all

theorem submitOne_resultsInv [Inhabited T] (items : List T) (op : Nat → Outcome R)
    (s : RunnerState T R) (i : Nat) (h : ResultsInv items op s) :
    ResultsInv items op (submitOne s i) := by
  unfold submitOne
  split <;> simpa [ResultsInv] using h

theorem completeStep_resultsInv [Inhabited T] (items : List T) (op : Nat → Outcome R)
    (s : RunnerState T R) (j : Nat) (h : ResultsInv items op s) :
    ResultsInv items op (completeStep items op s j) := by
  unfold completeStep
  by_cases hj : j ∈ s.active
  · have hlen : s.results.length = items.length := by rw [h]; simp
    have key : s.results.set j (some (expectedEntry (items.getD j default) (op j)))
        = (List.range items.length).map
            (fun i => if i ∈ (if j ∈ s.resolved then s.resolved else s.resolved ++ [j])
                      then expectedResult items op i else none) := by
      apply List.ext_getElem?
      intro i
      rw [List.getElem?_set, getElem?_map_range]
      by_cases hij : j = i
      · subst hij
        simp only [if_pos rfl, hlen]
        by_cases hn : j < items.length
        · simp [hn, mem_resolvedAfter_self j s.resolved, expectedResult]
        · simp [hn]
      · rw [if_neg hij, h, getElem?_map_range]
        by_cases hn : i < items.length
        · simp [hn, mem_resolvedAfter_of_ne s.resolved (fun hc => hij hc.symm)]
        · simp [hn]
    simp only [if_pos hj]
    cases hq : s.queue with
    | nil => exact key
    | cons k rest => exact key
  · simpa [hj] using h

theorem initState_resultsInv [Inhabited T] (items : List T) (op : Nat → Outcome R)
    (c : Int) : ResultsInv items op (initState c items.length) := by
  unfold ResultsInv initState
  simp [List.map_const']

theorem processRun_resultsInv [Inhabited T] (c : Int) (items : List T)
    (op : Nat → Outcome R) (sched : List Nat) :
    ResultsInv items op (processRun c items op sched) := by
  unfold processRun runSchedule
  apply foldl_invariant (completeStep items op) (ResultsInv items op)
    (fun b a hb => completeStep_resultsInv items op b a hb)
  unfold submitAll
  apply foldl_invariant submitOne (ResultsInv items op)
    (fun b a hb => submitOne_resultsInv items op b a hb)
  exact initState_resultsInv items op c

/-- Every state of a run (submission loop and completion schedule alike)
satisfies the counting invariant. -/
theorem traceStates_countInv [Inhabited T] (c : Int) (items : List T)
    (op : Nat → Outcome R) (sched : List Nat) (hc : 0 ≤ c)
    (s : RunnerState T R) (hs : s ∈ traceStates c items op sched) :
    CountInv c s := by
  have hinit : CountInv c (initState (T := T) (R := R) c items.length) :=
    ⟨rfl, rfl, hc⟩
  have hsubmit : CountInv c (submitAll (T := T) (R := R) c items.length) := by
    unfold submitAll
    exact foldl_invariant submitOne (CountInv c)
      (fun b a hb => submitOne_countInv b a hb) (List.range items.length)
      (initState c items.length) hinit
  unfold traceStates at hs
  rcases List.mem_append.mp hs with h | h
  · exact scanl_invariant submitOne (CountInv c)
      (fun b a hb => submitOne_countInv b a hb) (List.range items.length)
      (initState c items.length) hinit s h
  · exact scanl_invariant (completeStep items op) (CountInv c)
      (fun b a hb => completeStep_countInv items op b a hb) sched
      (submitAll c items.length) hsubmit s h

/-- C1.  For every input list, operation, concurrency and completion order:
once the `Promise.all` of `process` has resolved, the result list has the
same length as the input and its slot `i` holds `items[i]` together with
that item's success value or caught error. -/
theorem runner_process_index_correspondence [Inhabited T] (c : Int)
    (items : List T) (op : Nat → Outcome R) (sched : List Nat)
    (h : processResolvedB items.length (processRun c items op sched) = true) :
    (processRun c items op sched).results
      = (List.range items.length).map (fun i => expectedResult items op i)
    ∧ (processRun c items op sched).results.length = items.length := by
  have inv := processRun_resultsInv c items op sched
  rw [ResultsInv] at inv
  constructor
  · rw [inv]
    apply List.map_congr_left
    intro i hi
    have hilt : i < items.length := List.mem_range.mp hi
    have hres : i ∈ (processRun c items op sched).resolved := by
      have := List.all_eq_true.mp h i (by simpa using hilt)
      exact List.elem_iff.mp (by simpa using this)
    simp [hres]
  · rw [inv]; simp

/-- Operation used by concrete witnesses: item 1 fails, the rest succeed. -/
def wOp : Nat → Outcome Nat :=
  fun i => if i = 1 then .failure "boom" else .success i

/-- C1 witness: a concrete 3-item run with concurrency 2 and an
out-of-submission-order completion schedule. -/
theorem runner_process_index_correspondence_witness :
    processResolvedB 3 (processRun 2 ["a", "b", "c"] wOp [1, 0, 2]) = true
    ∧ (processRun 2 ["a", "b", "c"] wOp [1, 0, 2]).results
        = (List.range 3).map (fun i => expectedResult ["a", "b", "c"] wOp i) := by
  refine ⟨by decide, ?_⟩
  exact (runner_process_index_correspondence 2 ["a", "b", "c"] wOp [1, 0, 2]
    (by decide)).1

/-- C2.  With concurrency `k ≥ 1`, throughout a `process` call
`activeCount` stays between `0` and `k`; moreover at any point an
operation submitted via `enqueue` starts immediately exactly when
`activeCount < k`, and otherwise its start-thunk is appended to the
pending queue. -/
theorem runner_concurrency_bound [Inhabited T] (c : Int) (items : List T)
    (op : Nat → Outcome R) (sched : List Nat) (hc : 1 ≤ c)
    (s : RunnerState T R) (hs : s ∈ traceStates c items op sched) :
    (0 ≤ s.activeCount ∧ s.activeCount ≤ c ∧ (s.active.length : Int) ≤ c)
    ∧ ∀ i : Nat,
        (s.activeCount < c →
          (submitOne s i).activeCount = s.activeCount + 1
          ∧ (submitOne s i).started = s.started ++ [i]
          ∧ (submitOne s i).queue = s.queue)
        ∧ (¬ s.activeCount < c →
          (submitOne s i).queue = s.queue ++ [i]
          ∧ (submitOne s i).started = s.started
          ∧ (submitOne s i).activeCount = s.activeCount) := by
  obtain ⟨hcon, hlen, hle⟩ := traceStates_countInv c items op sched
    (le_trans (by omega) hc) s hs
  refine ⟨⟨by rw [hlen]; exact Int.natCast_nonneg _, hle, by rw [← hlen]; exact hle⟩, ?_⟩
  intro i
  constructor
  · intro hlt
    unfold submitOne
    rw [hcon, if_pos hlt]
    exact ⟨rfl, rfl, rfl⟩
  · intro hge
    unfold submitOne
    rw [hcon, if_neg hge]
    exact ⟨rfl, rfl, rfl⟩

/-- C2 witness: the concrete post-submission state of a 2-item run with
concurrency 1 lies on the trace, satisfies the bounds, and queues a
submission since `activeCount` is saturated. -/
theorem runner_concurrency_bound_witness :
    (0 ≤ (submitAll (T := String) (R := Nat) 1 2).activeCount
      ∧ (submitAll (T := String) (R := Nat) 1 2).activeCount ≤ 1
      ∧ ((submitAll (T := String) (R := Nat) 1 2).active.length : Int) ≤ 1)
    ∧ ((submitOne (submitAll (T := String) (R := Nat) 1 2) 5).queue
        = (submitAll (T := String) (R := Nat) 1 2).queue ++ [5]
      ∧ (submitOne (submitAll (T := String) (R := Nat) 1 2) 5).started
        = (submitAll (T := String) (R := Nat) 1 2).started
      ∧ (submitOne (submitAll (T := String) (R := Nat) 1 2) 5).activeCount
        = (submitAll (T := String) (R := Nat) 1 2).activeCount) := by
  have h := runner_concurrency_bound (R := Nat) 1 ["a", "b"] wOp [0, 1]
    (by decide) (submitAll 1 2) (by decide)
  exact ⟨h.1, (h.2 5).2 (by decide)⟩

/-! Failure isolation: the runner's control flow never inspects an
operation's outcome, so changing what happens to one item leaves every
other item's execution and result untouched. -/

/-- Two runner states that agree everywhere except possibly in result
slot `j`. -/
def IsoExceptAt (j : Nat) (sf sg : RunnerState T R) : Prop :=
  sf.concurrency = sg.concurrency
  ∧ sf.activeCount = sg.activeCount
  ∧ sf.active = sg.active
  ∧ sf.queue = sg.queue
  ∧ sf.started = sg.started
  ∧ sf.resolved = sg.resolved
  ∧ sf.results.length = sg.results.length
  ∧ ∀ i : Nat, i ≠ j → sf.results[i]? = sg.results[i]?

theorem completeStep_isoExceptAt [Inhabited T] (items : List T)
    (f g : Nat → Outcome R) (j : Nat) (hfg : ∀ i, i ≠ j → f i = g i)
    (sf sg : RunnerState T R) (j2 : Nat) (h : IsoExceptAt j sf sg) :
    IsoExceptAt j (completeStep items f sf j2) (completeStep items g sg j2) := by
  obtain ⟨hc, ha, hact, hq, hst, hres, hlen, hptr⟩ := h
  have hresults : ∀ i : Nat, i ≠ j →
      (sf.results.set j2 (some (expectedEntry (items.getD j2 default) (f j2))))[i]?
        = (sg.results.set j2 (some (expectedEntry (items.getD j2 default) (g j2))))[i]? := by
    intro i hi
    rw [List.getElem?_set, List.getElem?_set, hlen]
    by_cases hj2i : j2 = i
    · have : f j2 = g j2 := hfg j2 (hj2i ▸ hi)
      rw [this, if_pos hj2i, if_pos hj2i]
    · rw [if_neg hj2i, if_neg hj2i]
      exact hptr i hi
  unfold completeStep
  simp only [hact, hq, hres]
  by_cases hj2 : j2 ∈ sg.active
  · rw [if_pos hj2, if_pos hj2]
    cases hq2 : sg.queue with
    | nil =>
      dsimp only
      exact ⟨hc, by rw [ha], rfl, rfl, hst, rfl,
        by simp only [List.length_set]; exact hlen, hresults⟩
    | cons k rest =>
      dsimp only
      exact ⟨hc, by rw [ha], rfl, rfl, by rw [hst], rfl,
        by simp only [List.length_set]; exact hlen, hresults⟩
  · rw [if_neg hj2, if_neg hj2]
    exact ⟨hc, ha, hact, hq, hst, hres, hlen, hptr⟩

theorem runSchedule_isoExceptAt [Inhabited T] (items : List T)
    (f g : Nat → Outcome R) (j : Nat) (hfg : ∀ i, i ≠ j → f i = g i) :
    ∀ (sched : List Nat) (sf sg : RunnerState T R), IsoExceptAt j sf sg →
      IsoExceptAt j (runSchedule items f sf sched) (runSchedule items g sg sched) := by
  intro sched
  induction sched with
  | nil => intro sf sg h; exact h
  | cons x xs ih =>
    intro sf sg h
    exact ih (completeStep items f sf x) (completeStep items g sg x)
      (completeStep_isoExceptAt items f g j hfg sf sg x h)

theorem isoExceptAt_refl (j : Nat) (s : RunnerState T R) : IsoExceptAt j s s :=
  ⟨rfl, rfl, rfl, rfl, rfl, rfl, rfl, fun _ _ => rfl⟩

/-- C3.  If the operation for item `j` throws/rejects (run `f`) instead of
succeeding (run `g`), `process` still resolves exactly as before, every
other item's result slot is unchanged, and slot `j` holds the caught error
once task `j` resolved. -/
theorem runner_failure_isolation [Inhabited T] (c : Int) (items : List T)
    (f g : Nat → Outcome R) (j : Nat) (e : String) (r : R) (sched : List Nat)
    (hfg : ∀ i, i ≠ j → f i = g i) (hf : f j = .failure e)
    (_hg : g j = .success r) :
    (processRun c items f sched).resolved = (processRun c items g sched).resolved
    ∧ (processRun c items f sched).started = (processRun c items g sched).started
    ∧ (processRun c items f sched).queue = (processRun c items g sched).queue
    ∧ (∀ i : Nat, i ≠ j →
        (processRun c items f sched).results[i]?
          = (processRun c items g sched).results[i]?)
    ∧ processResolvedB items.length (processRun c items f sched)
        = processResolvedB items.length (processRun c items g sched)
    ∧ (j < items.length → j ∈ (processRun c items f sched).resolved →
        (processRun c items f sched).results[j]?
          = some (some ⟨items.getD j default, none, some e⟩)) := by
  have hiso : IsoExceptAt j (processRun c items f sched) (processRun c items g sched) := by
    unfold processRun
    exact runSchedule_isoExceptAt items f g j hfg sched _ _
      (isoExceptAt_refl j (submitAll c items.length))
  obtain ⟨hc, ha, hact, hq, hst, hres, hlen, hptr⟩ := hiso
  refine ⟨hres, hst, hq, hptr, ?_, ?_⟩
  · unfold processResolvedB
    rw [hres]
  · intro hjn hjres
    have inv := processRun_resultsInv c items f sched
    rw [ResultsInv] at inv
    rw [inv, getElem?_map_range, if_pos hjn, if_pos hjres]
    unfold expectedResult
    rw [hf]
    rfl

/-- Success-only operation used in witnesses. -/
def wOpSucc : Nat → Outcome Nat := fun i => .success i

/-- C3 witness: concrete 3-item run where item 1 fails under `wOp` and
succeeds under `wOpSucc`; all other slots coincide and slot 1 carries the
caught error. -/
theorem runner_failure_isolation_witness :
    (processRun 2 ["a", "b", "c"] wOp [1, 0, 2]).resolved
      = (processRun 2 ["a", "b", "c"] wOpSucc [1, 0, 2]).resolved
    ∧ (processRun 2 ["a", "b", "c"] wOp [1, 0, 2]).results[0]?
        = (processRun 2 ["a", "b", "c"] wOpSucc [1, 0, 2]).results[0]?
    ∧ (processRun 2 ["a", "b", "c"] wOp [1, 0, 2]).results[1]?
        = some (some ⟨"b", none, some "boom"⟩) := by
  have h := runner_failure_isolation 2 ["a", "b", "c"] wOp wOpSucc 1 "boom" 1
    [1, 0, 2] (fun i hi => by unfold wOp wOpSucc; rw [if_neg hi]) rfl rfl
  exact ⟨h.1, h.2.2.2.1 0 (by decide),
    h.2.2.2.2.2 (by decide) (by decide)⟩

/-! FIFO admission: started tasks followed by the pending queue always list
the indices in submission order, so queued tasks are admitted first-in
first-out. -/

/-- Saturation invariant: the pending queue is non-empty only while the
concurrency budget is exhausted. -/
def SatInv (s : RunnerState T R) : Prop :=
  s.queue ≠ [] → s.concurrency ≤ s.activeCount

theorem submitOne_fifo (s : RunnerState T R) (i : Nat) (hK : SatInv s) :
    ((submitOne s i).started ++ (submitOne s i).queue = s.started ++ s.queue ++ [i])
      ∧ SatInv (submitOne s i) := by
  unfold submitOne
  by_cases hlt : s.activeCount < s.concurrency
  · have hqnil : s.queue = [] := by
      by_contra hne
      exact absurd (hK hne) (by omega)
    rw [if_pos hlt]
    refine ⟨?_, ?_⟩
    · dsimp only; rw [hqnil]; simp
    · intro hne
      dsimp only at hne ⊢
      rw [hqnil] at hne
      exact absurd rfl hne
  · rw [if_neg hlt]
    refine ⟨by dsimp only; simp, ?_⟩
    intro _
    dsimp only
    omega

theorem foldl_submit_fifo :
    ∀ (l : List Nat) (s : RunnerState T R), SatInv s →
      ((l.foldl submitOne s).started ++ (l.foldl submitOne s).queue
        = s.started ++ s.queue ++ l)
      ∧ SatInv (l.foldl submitOne s) := by
  intro l
  induction l with
  | nil => intro s hK; exact ⟨by simp, hK⟩
  | cons x xs ih =>
    intro s hK
    obtain ⟨h1, hK1⟩ := submitOne_fifo s x hK
    obtain ⟨h2, hK2⟩ := ih (submitOne s x) hK1
    refine ⟨?_, hK2⟩
    rw [List.foldl_cons, h2, h1]
    simp

theorem completeStep_fifo [Inhabited T] (items : List T) (op : Nat → Outcome R)
    (s : RunnerState T R) (j : Nat) :
    (completeStep items op s j).started ++ (completeStep items op s j).queue
      = s.started ++ s.queue := by
  unfold completeStep
  by_cases hj : j ∈ s.active
  · rw [if_pos hj]
    cases hq : s.queue with
    | nil => simp
    | cons k rest => simp
  · rw [if_neg hj]

theorem runSchedule_fifo [Inhabited T] (items : List T) (op : Nat → Outcome R) :
    ∀ (sched : List Nat) (s : RunnerState T R),
      (runSchedule items op s sched).started ++ (runSchedule items op s sched).queue
        = s.started ++ s.queue := by
  intro sched
  induction sched with
  | nil => intro s; rfl
  | cons x xs ih =>
    intro s
    unfold runSchedule at ih ⊢
    rw [List.foldl_cons, ih (completeStep items op s x), completeStep_fifo]

/-- At every point of a run, the tasks started so far followed by the
pending queue are exactly the indices in submission order. -/
theorem processRun_fifo [Inhabited T] (c : Int) (items : List T)
    (op : Nat → Outcome R) (sched : List Nat) :
    (processRun c items op sched).started ++ (processRun c items op sched).queue
      = List.range items.length := by
  unfold processRun
  rw [runSchedule_fifo]
  have hK : SatInv (initState (T := T) (R := R) c items.length) := by
    intro hne
    exact absurd rfl hne
  have := (foldl_submit_fifo (List.range items.length)
    (initState (T := T) (R := R) c items.length) hK).1
  unfold submitAll
  rw [this]
  rfl

/-- Success operation over `Nat` items, used by the concrete FIFO run. -/
def abcOp : Nat → Outcome Nat := fun i => .success i

/-- C4.  On completion of a running task the queue head — exactly it — is
dequeued and started and `activeCount` is net unchanged (decrement then
increment); with an empty queue `activeCount` is just decremented and
nothing starts.  Consequently started-then-queued indices always read in
submission order, and in the concrete concurrency-1 run over items
A, B, C the operations start in order A, B, C. -/
theorem runner_fifo_admission [Inhabited T] (c : Int) (items : List T)
    (op : Nat → Outcome R) (sched : List Nat) (s : RunnerState T R)
    (j k : Nat) (rest : List Nat) (hj : j ∈ s.active) (hq : s.queue = k :: rest) :
    ((completeStep items op s j).queue = rest
      ∧ (completeStep items op s j).started = s.started ++ [k]
      ∧ (completeStep items op s j).activeCount = s.activeCount - 1 + 1)
    ∧ (∀ (s2 : RunnerState T R) (j2 : Nat), j2 ∈ s2.active → s2.queue = [] →
        (completeStep items op s2 j2).activeCount = s2.activeCount - 1
        ∧ (completeStep items op s2 j2).started = s2.started)
    ∧ (processRun c items op sched).started ++ (processRun c items op sched).queue
        = List.range items.length
    ∧ (processRun 1 ["A", "B", "C"] abcOp [0, 1, 2]).started = [0, 1, 2] := by
  refine ⟨?_, ?_, processRun_fifo c items op sched, by decide⟩
  · unfold completeStep
    rw [if_pos hj, hq]
    exact ⟨rfl, rfl, rfl⟩
  · intro s2 j2 hj2 hq2
    unfold completeStep
    rw [if_pos hj2, hq2]
    exact ⟨rfl, rfl⟩

/-- C4 witness: concrete completion of the only active task with a
non-empty queue dequeues exactly the head. -/
theorem runner_fifo_admission_witness :
    ((completeStep ["A", "B", "C"] abcOp
        ⟨1, 1, [0], [1, 2], List.replicate 3 none, [0], []⟩ 0).queue = [2]
      ∧ (completeStep ["A", "B", "C"] abcOp
          ⟨1, 1, [0], [1, 2], List.replicate 3 none, [0], []⟩ 0).started = [0] ++ [1]
      ∧ (completeStep ["A", "B", "C"] abcOp
          ⟨1, 1, [0], [1, 2], List.replicate 3 none, [0], []⟩ 0).activeCount
        = 1 - 1 + 1)
    ∧ (processRun 1 ["A", "B", "C"] abcOp [0, 1, 2]).started
        ++ (processRun 1 ["A", "B", "C"] abcOp [0, 1, 2]).queue = List.range 3 := by
  have h := runner_fifo_admission 1 ["A", "B", "C"] abcOp [0, 1, 2]
    ⟨1, 1, [0], [1, 2], List.replicate 3 none, [0], []⟩ 0 1 [2]
    (by decide) rfl
  exact ⟨h.1, h.2.2.1⟩

/-! Degenerate concurrency: with `concurrency ≤ 0` nothing is ever
admitted, so the whole batch is queued forever and `process` cannot
resolve. -/

theorem foldl_submit_stuck :
    ∀ (l : List Nat) (s : RunnerState T R), ¬ s.activeCount < s.concurrency →
      l.foldl submitOne s
        = { s with queue := s.queue ++ l } := by
  intro l
  induction l with
  | nil => intro s _; simp
  | cons x xs ih =>
    intro s hge
    rw [List.foldl_cons]
    have hone : submitOne s x = { s with queue := s.queue ++ [x] } := by
      unfold submitOne
      rw [if_neg hge]
    rw [hone, ih _ (by dsimp only; exact hge)]
    simp

theorem runSchedule_stuck [Inhabited T] (items : List T) (op : Nat → Outcome R) :
    ∀ (sched : List Nat) (s : RunnerState T R), s.active = [] →
      runSchedule items op s sched = s := by
  intro sched
  induction sched with
  | nil => intro s _; rfl
  | cons x xs ih =>
    intro s hact
    have hx : completeStep items op s x = s := by
      unfold completeStep
      rw [if_neg (by rw [hact]; exact List.not_mem_nil x)]
    unfold runSchedule at ih ⊢
    rw [List.foldl_cons, hx, ih s hact]

/-- C5.  The constructor stores any `concurrency` value unvalidated; with
`concurrency ≤ 0` and a non-empty input, `process` starts no operation at
all: the admission test fails for every item, the whole batch sits in the
queue, no completion can ever occur, and the returned promise never
resolves. -/
theorem runner_nonpositive_concurrency_stall [Inhabited T] (c : Int)
    (items : List T) (op : Nat → Outcome R) (sched : List Nat)
    (hc : c ≤ 0) (hne : items ≠ []) :
    (processRun c items op sched).started = []
    ∧ (processRun c items op sched).active = []
    ∧ (processRun c items op sched).activeCount = 0
    ∧ (processRun c items op sched).queue = List.range items.length
    ∧ (processRun c items op sched).results = List.replicate items.length none
    ∧ processResolvedB items.length (processRun c items op sched) = false := by
  have hsub : submitAll (T := T) (R := R) c items.length
      = { initState c items.length with queue := List.range items.length } := by
    unfold submitAll
    rw [foldl_submit_stuck (List.range items.length) (initState c items.length)
      (by unfold initState; dsimp only; omega)]
    rfl
  have hrun : processRun c items op sched
      = { initState (T := T) (R := R) c items.length with
            queue := List.range items.length } := by
    unfold processRun
    rw [hsub]
    exact runSchedule_stuck items op sched _ rfl
  rw [hrun]
  refine ⟨rfl, rfl, rfl, rfl, rfl, ?_⟩
  unfold processResolvedB
  have h0 : (0 : Nat) ∈ List.range items.length := by
    rw [List.mem_range]
    exact List.length_pos.mpr hne
  apply (Bool.eq_false_iff).mpr
  intro hall
  have := List.all_eq_true.mp hall 0 h0
  simp [initState] at this

/-- C5 witness: `concurrency = 0` with one item and a schedule that tries
to deliver completions: nothing starts and the promise is unresolved. -/
theorem runner_nonpositive_concurrency_stall_witness :
    (processRun 0 ["a"] wOpSucc [0, 0, 1]).started = []
    ∧ processResolvedB 1 (processRun 0 ["a"] wOpSucc [0, 0, 1]) = false := by
  have h := runner_nonpositive_concurrency_stall 0 ["a"] wOpSucc [0, 0, 1]
    (by decide) (by decide)
  exact ⟨h.1, h.2.2.2.2.2⟩

/-- C6.  `process` on the empty list: no operation is ever invoked (none
even starts), the result list is empty, and the `Promise.all` over zero
promises resolves at once. -/
theorem runner_empty_input (c : Int) (op : Nat → Outcome Nat) (sched : List Nat) :
    (processRun c ([] : List String) op sched).results = []
    ∧ (processRun c ([] : List String) op sched).started = []
    ∧ processResolvedB 0 (processRun c ([] : List String) op sched) = true := by
  have hsub : submitAll (T := String) (R := Nat) c 0 = initState c 0 := rfl
  have hrun : processRun c ([] : List String) op sched
      = initState (T := String) (R := Nat) c 0 := by
    unfold processRun
    rw [List.length_nil, hsub]
    exact runSchedule_stuck [] op sched _ rfl
  rw [hrun]
  exact ⟨rfl, rfl, rfl⟩

/-! Caption prompt construction (src/captionGenerator.ts,
`CaptionGenerator.generateCaption`).  JS truthiness on an optional string:
`undefined` and the empty string are falsy. -/

/-- JS truthiness of a `string | undefined` value. -/
def truthyStr : Option String → Bool
  | none => false
  | some s => s != ""

/-- The `existingMetadata` argument of `generateCaption`. -/
structure ExistingMetadata where
  caption : Option String
  tags : Option (List String)
  deriving DecidableEq, Repr

/-- The `existingMetadata.tags && existingMetadata.tags.length > 0` test. -/
def tagsTruthyNonempty (md : ExistingMetadata) : Bool :=
  md.tags.isSome && decide (0 < (md.tags.getD []).length)

/-- The `contextParts` array built inside `generateCaption`. -/
def contextParts (md : ExistingMetadata) : List String :=
  (if truthyStr md.caption
    then ["EXIF Caption: \"" ++ md.caption.getD "" ++ "\""] else [])
    ++ (if tagsTruthyNonempty md
        then ["EXIF Keywords: " ++ String.intercalate ", " (md.tags.getD [])]
        else [])

/-- The guard of the context block: metadata present with a truthy caption
or a non-empty tag array. -/
def hasMetadataContext : Option ExistingMetadata → Bool
  | none => false
  | some md => truthyStr md.caption || tagsTruthyNonempty md

/-- Text appended to the base prompt when context is present (the heredoc
template of `generateCaption`, after dedent). -/
def enhancedPromptSuffix (md : ExistingMetadata) : String :=
  " Use the image metadata to inform your caption.\n\nImage metadata: \"\"\"\n"
    ++ String.intercalate "\n" (contextParts md)
    ++ "\n\"\"\"\n\nTry to include any names from the metadata in your caption, but be careful not to infer too much."

/-- The `enhancedPrompt` computed by `generateCaption` from the instance
prompt and the optional existing metadata. -/
def buildEnhancedPrompt (prompt : String) (existingMetadata : Option ExistingMetadata) :
    String :=
  match existingMetadata with
  | none => prompt
  | some md =>
    if truthyStr md.caption || tagsTruthyNonempty md then
      if 0 < (contextParts md).length then prompt ++ enhancedPromptSuffix md
      else prompt
    else prompt

theorem contextParts_nonempty_of_context (md : ExistingMetadata)
    (h : truthyStr md.caption || tagsTruthyNonempty md) :
    0 < (contextParts md).length := by
  unfold contextParts
  rcases Bool.or_eq_true_iff.mp h with hcap | htags
  · rw [if_pos hcap]
    simp
  · rw [if_pos htags]
    simp

theorem string_eq_empty_of_length_zero {t : String} (h : t.length = 0) :
    t = "" := by
  cases t with
  | mk data =>
    rw [String.length] at h
    simp only [List.length_eq_zero] at h
    rw [h]

theorem string_append_right_cancel_self {s t : String} (h : s ++ t = s) :
    t = "" := by
  have hlen := congrArg String.length h
  rw [String.length_append] at hlen
  exact string_eq_empty_of_length_zero (by omega)

theorem enhancedPromptSuffix_ne_empty (md : ExistingMetadata) :
    enhancedPromptSuffix md ≠ "" := by
  unfold enhancedPromptSuffix
  intro h
  have hlen := congrArg String.length h
  rw [String.length_append] at hlen
  rw [String.length_append] at hlen
  have h1 : 0 < (" Use the image metadata to inform your caption.\n\nImage metadata: \"\"\"\n" : String).length := by decide
  have h2 : ("" : String).length = 0 := rfl
  omega

/-- C8.  The enhanced prompt equals the base prompt exactly when the
existing metadata carries neither a (truthy) caption nor a non-empty tag
list; otherwise it is the base prompt properly extended with the metadata
context block and the names instruction. -/
theorem caption_prompt_context (prompt : String) (m : Option ExistingMetadata)
    (hm : hasMetadataContext m = true) :
    buildEnhancedPrompt prompt m
      = prompt ++ enhancedPromptSuffix (m.getD ⟨none, none⟩)
    ∧ buildEnhancedPrompt prompt m ≠ prompt
    ∧ ∀ m2 : Option ExistingMetadata, hasMetadataContext m2 = false →
        buildEnhancedPrompt prompt m2 = prompt := by
  have hbase : ∀ m2 : Option ExistingMetadata, hasMetadataContext m2 = false →
      buildEnhancedPrompt prompt m2 = prompt := by
    intro m2 h2
    match m2 with
    | none => rfl
    | some md =>
      simp only [hasMetadataContext] at h2
      simp only [buildEnhancedPrompt]
      rw [if_neg (by rw [h2]; exact Bool.false_ne_true)]
  match m with
  | none =>
    exact absurd hm (by simp only [hasMetadataContext]; exact Bool.false_ne_true)
  | some md =>
    simp only [hasMetadataContext] at hm
    have heq : buildEnhancedPrompt prompt (some md)
        = prompt ++ enhancedPromptSuffix md := by
      simp only [buildEnhancedPrompt]
      rw [if_pos hm, if_pos (contextParts_nonempty_of_context md hm)]
    refine ⟨heq, ?_, hbase⟩
    rw [heq]
    intro hcontra
    exact enhancedPromptSuffix_ne_empty md
      (string_append_right_cancel_self hcontra)

/-- C8 witness: metadata with caption "Alice at the lake" produces the
base prompt extended with the context block; metadata with an empty
caption and no tags leaves the base prompt untouched. -/
theorem caption_prompt_context_witness :
    hasMetadataContext (some ⟨some "Alice at the lake", none⟩) = true
    ∧ buildEnhancedPrompt "P" (some ⟨some "Alice at the lake", none⟩)
        = "P" ++ enhancedPromptSuffix ⟨some "Alice at the lake", none⟩
    ∧ buildEnhancedPrompt "P" (some ⟨some "", none⟩) = "P" := by
  have h := caption_prompt_context "P" (some ⟨some "Alice at the lake", none⟩)
    (by decide)
  exact ⟨by decide, h.1, h.2.2 (some ⟨some "", none⟩) (by decide)⟩

/-! Metadata context selection in `processImage`.  The repository carries
two variants: src/index.ts combines the three caption-bearing fields with
`||` (JS truthiness fallback), while the variant in src/unnamed/part_001
combines them with `??` (nullish coalescing).  Both then guard with
`if (existingCaption)` before storing the context caption. -/

/-- A `string | string[]` EXIF value (`Keywords` / `Subject`). -/
inductive StrOrList where
  | str (s : String)
  | list (l : List String)
  deriving DecidableEq, Repr

/-- The metadata mapping consumed by `processImage`: the fields the code
reads, each possibly absent. -/
structure ExifMeta where
  captionAbstract : Option String
  description : Option String
  imageDescription : Option String
  keywords : Option StrOrList
  subject : Option StrOrList
  deriving DecidableEq, Repr

/-- The empty mapping `\x7b\x7d`. -/
def emptyExifMeta : ExifMeta := ⟨none, none, none, none, none⟩

/-- JS `a || b` on `string | undefined` values: keeps `a` when truthy. -/
def jsOrString (a b : Option String) : Option String :=
  if truthyStr a then a else b

/-- JS `a ?? b` on `string | undefined` values: keeps `a` when present,
even if empty. -/
def jsNullish (a b : Option String) : Option String :=
  match a with
  | some s => some s
  | none => b

/-- Context caption chosen by `processImage` in src/index.ts:
`metadata["Caption-Abstract"] || metadata["Description"] ||
metadata["ImageDescription"]`, stored only when truthy. -/
def contextCaptionCurrent (m : ExifMeta) : Option String :=
  let existingCaption :=
    jsOrString (jsOrString m.captionAbstract m.description) m.imageDescription
  if truthyStr existingCaption then existingCaption else none

/-- Context caption chosen by the `processImage` variant in
src/unnamed/part_001: `metadata["Caption-Abstract"] ?? metadata.Description
?? metadata.ImageDescription`, stored only when truthy. -/
def contextCaptionVariant (m : ExifMeta) : Option String :=
  let existingCaption :=
    jsNullish (jsNullish m.captionAbstract m.description) m.imageDescription
  if truthyStr existingCaption then existingCaption else none

/-- C7 counterexample: with the legacy caption field present but empty and
a non-empty description, the part_001 variant of `processImage` selects no
context caption at all — the description's value is *not* used, refuting
the first-non-empty claim for that variant. -/
theorem metadata_context_variant_counterexample :
    contextCaptionVariant ⟨some "", some "A vintage car", none, none, none⟩ = none
    ∧ contextCaptionVariant ⟨some "", some "A vintage car", none, none, none⟩
        ≠ some "A vintage car" := by
  constructor
  · rfl
  · intro h
    exact Option.noConfusion h

/-- C7 (amended).  With an empty legacy caption and a non-empty
description, src/index.ts (`||` fallback) uses the description as the
context caption — first non-empty wins — while the part_001 variant
(`??` fallback) yields no caption context at all. -/
theorem metadata_context_first_nonempty (m : ExifMeta) (d : String)
    (hca : m.captionAbstract = some "") (hd : m.description = some d)
    (hne : d ≠ "") :
    contextCaptionCurrent m = some d ∧ contextCaptionVariant m = none := by
  have htruthy : truthyStr (some d) = true := by
    unfold truthyStr
    exact bne_iff_ne.mpr hne
  constructor
  · unfold contextCaptionCurrent
    rw [hca, hd]
    simp [jsOrString, truthyStr, hne]
  · unfold contextCaptionVariant
    rw [hca, hd]
    unfold jsNullish
    rfl

/-- C7 witness: the concrete mapping from the counterexample, under the
amended statement. -/
theorem metadata_context_first_nonempty_witness :
    contextCaptionCurrent ⟨some "", some "A vintage car", none, none, none⟩
      = some "A vintage car"
    ∧ contextCaptionVariant ⟨some "", some "A vintage car", none, none, none⟩
      = none :=
  metadata_context_first_nonempty ⟨some "", some "A vintage car", none, none, none⟩
    "A vintage car" rfl rfl (by decide)

/-! `readImageMetadata` (src/imageProcessor.ts): exiftool subprocess, JSON
parse, first array element (`?? \x7b\x7d`), zod schema parse — all wrapped
in a try/catch that turns any failure into the empty mapping. -/

/-- The fallible pipeline inside the `try` block of `readImageMetadata`,
parameterised over the behaviours of the subprocess call, of `JSON.parse`
and of `ExifMetadataSchema.parse`. -/
def readImageMetadataAttempt (M : Type) (emptyRaw : M)
    (execResult : Except String String)
    (parseJson : String → Except String (List M))
    (schemaParse : M → Except String ExifMeta) : Except String ExifMeta := do
  let stdout ← execResult
  let raw ← parseJson stdout
  schemaParse (raw.headD emptyRaw)

/-- `readImageMetadata`: the try/catch around the pipeline — any error is
caught (and logged) and the empty mapping is returned instead. -/
def readImageMetadata (M : Type) (emptyRaw : M)
    (execResult : Except String String)
    (parseJson : String → Except String (List M))
    (schemaParse : M → Except String ExifMeta) : ExifMeta :=
  match readImageMetadataAttempt M emptyRaw execResult parseJson schemaParse with
  | .ok m => m
  | .error _ => emptyExifMeta

/-- C9.  `readImageMetadata` never propagates a failure: whenever any
stage of the pipeline (subprocess, JSON parse, schema parse) fails, it
returns the empty mapping; and on success it returns the parsed mapping —
these are the only possible results, so it never raises. -/
theorem read_metadata_never_raises (M : Type) (emptyRaw : M)
    (execResult : Except String String)
    (parseJson : String → Except String (List M))
    (schemaParse : M → Except String ExifMeta) (e : String)
    (h : readImageMetadataAttempt M emptyRaw execResult parseJson schemaParse
      = .error e) :
    readImageMetadata M emptyRaw execResult parseJson schemaParse = emptyExifMeta
    ∧ ∀ m : ExifMeta,
        readImageMetadataAttempt M emptyRaw execResult parseJson schemaParse = .ok m →
        readImageMetadata M emptyRaw execResult parseJson schemaParse = m := by
  constructor
  · unfold readImageMetadata
    rw [h]
  · intro m hm
    rw [h] at hm
    exact Except.noConfusion hm

/-- C9 witness: a failing exiftool invocation yields the empty mapping. -/
theorem read_metadata_never_raises_witness :
    readImageMetadata Unit () (.error "spawn exiftool ENOENT")
      (fun _ => .ok []) (fun _ => .ok emptyExifMeta) = emptyExifMeta :=
  (read_metadata_never_raises Unit () (.error "spawn exiftool ENOENT")
    (fun _ => .ok []) (fun _ => .ok emptyExifMeta)
    "spawn exiftool ENOENT" rfl).1

/-! `writeCaption` (src/imageProcessor.ts): builds the output path from the
source's directory, `..`, `output` and the source's base filename, then
invokes exiftool with the three caption fields; a failing invocation is
wrapped and rethrown.  Paths are modelled as component lists;
`renderPath` is the `/`-joined string, and `resolveDots` is the `..`
normalisation `path.join` performs. -/

/-- Render path components as a `/`-separated string. -/
def renderPath (parts : List String) : String := String.intercalate "/" parts

/-- `path.join` segment normalisation: `..` pops the previous component. -/
def resolveDots (parts : List String) : List String :=
  parts.foldl (fun acc comp => if comp = ".." then acc.dropLast else acc ++ [comp]) []

/-- `path.join(path.dirname(imagePath), "..", "output",
path.basename(imagePath))`. -/
def outputPathFor (imagePath : List String) : List String :=
  resolveDots (imagePath.dropLast ++ [".."] ++ ["output", imagePath.getLastD ""])

/-- The argument vector `writeCaption` passes to exiftool. -/
def writeCaptionArgs (imagePath : List String) (caption : String) : List String :=
  ["-overwrite_original",
   "-Caption-Abstract=" ++ caption,
   "-Description=" ++ caption,
   "-ImageDescription=" ++ caption,
   renderPath imagePath,
   "-o",
   renderPath (outputPathFor imagePath)]

/-- `writeCaption`: run exiftool; on failure, wrap and rethrow. -/
def writeCaption (imagePath : List String) (caption : String)
    (exec : List String → Except String Unit) : Except String Unit :=
  match exec (writeCaptionArgs imagePath caption) with
  | .ok _ => .ok ()
  | .error e => .error ("Failed to write caption to image: " ++ e)

theorem resolveDots_foldl_no_dots :
    ∀ (l acc : List String), (".." ∈ l → False) →
      l.foldl (fun a comp => if comp = ".." then a.dropLast else a ++ [comp]) acc
        = acc ++ l := by
  intro l
  induction l with
  | nil => intro acc _; simp
  | cons x xs ih =>
    intro acc hx
    rw [List.foldl_cons,
      if_neg (fun hc => hx (by rw [← hc]; exact List.mem_cons_self x xs)),
      ih (acc ++ [x]) (fun hm => hx (List.mem_cons_of_mem x hm))]
    simp

/-- The output path: the input directory's parent, then `output`, then the
source's base filename. -/
theorem outputPathFor_eq (p : List String) (hdots : ".." ∉ p) :
    outputPathFor p = p.dropLast.dropLast ++ ["output", p.getLastD ""] := by
  unfold outputPathFor resolveDots
  have hnd : ".." ∈ p.dropLast → False := fun hm =>
    hdots ((List.dropLast_sublist p).subset hm)
  have hmid : List.foldl
      (fun acc comp => if comp = ".." then acc.dropLast else acc ++ [comp])
      p.dropLast [".."] = p.dropLast.dropLast := by
    simp
  have hlast : ".." ∈ (["output", p.getLastD ""] : List String) → False := by
    intro hm
    rcases List.mem_cons.mp hm with h1 | h2
    · exact absurd h1 (by decide)
    · have h3 : ".." = p.getLastD "" := List.mem_singleton.mp h2
      cases p with
      | nil => exact absurd h3 (by decide)
      | cons a as =>
        apply hdots
        rw [h3, List.getLastD_eq_getLast?,
          List.getLast?_eq_getLast (a :: as) (by simp)]
        simp [List.getLast_mem]
  rw [List.foldl_append, List.foldl_append,
    resolveDots_foldl_no_dots p.dropLast [] hnd, List.nil_append, hmid,
    resolveDots_foldl_no_dots ["output", p.getLastD ""] p.dropLast.dropLast hlast]

/-- C10.  `writeCaption` invokes exiftool with exactly the three field
assignments, each set to the identical caption text, the untouched source
path as input, and `-o` directed at the source's base filename inside the
sibling `output` directory; a failing invocation makes `writeCaption`
return a wrapped error, never a silent success. -/
theorem write_caption_fields_and_output (p : List String) (c : String)
    (exec : List String → Except String Unit) (hdots : ".." ∉ p) :
    writeCaptionArgs p c
      = ["-overwrite_original",
         "-Caption-Abstract=" ++ c,
         "-Description=" ++ c,
         "-ImageDescription=" ++ c,
         renderPath p,
         "-o",
         renderPath (p.dropLast.dropLast ++ ["output", p.getLastD ""])]
    ∧ (∀ e, exec (writeCaptionArgs p c) = .error e →
        writeCaption p c exec
          = .error ("Failed to write caption to image: " ++ e))
    ∧ (∀ u : Unit, exec (writeCaptionArgs p c) = .ok u →
        writeCaption p c exec = .ok ()) := by
  refine ⟨?_, ?_, ?_⟩
  · unfold writeCaptionArgs
    rw [outputPathFor_eq p hdots]
  · intro e he
    unfold writeCaption
    rw [he]
  · intro u hu
    unfold writeCaption
    rw [hu]

/-- C10 witness: a concrete source path `/photos/input/img.jpg` and a
failing exiftool run. -/
theorem write_caption_fields_and_output_witness :
    writeCaptionArgs ["", "photos", "input", "img.jpg"] "A dog"
      = ["-overwrite_original",
         "-Caption-Abstract=" ++ "A dog",
         "-Description=" ++ "A dog",
         "-ImageDescription=" ++ "A dog",
         renderPath ["", "photos", "input", "img.jpg"],
         "-o",
         renderPath (["", "photos", "input", "img.jpg"].dropLast.dropLast
           ++ ["output", ["", "photos", "input", "img.jpg"].getLastD ""])]
    ∧ writeCaption ["", "photos", "input", "img.jpg"] "A dog"
        (fun _ => .error "boom")
        = .error ("Failed to write caption to image: " ++ "boom") := by
  have h := write_caption_fields_and_output ["", "photos", "input", "img.jpg"]
    "A dog" (fun _ => .error "boom") (by decide)
  exact ⟨h.1, h.2.1 "boom" rfl⟩

end CandidCaptions
